import Mathlib

set_option maxHeartbeats 1000000

/-! Shallow embedding of the live-conversation session component
(`LiveConversation`, `src/unnamed/part_000`): the capture encoder
`createBlob`, the playback scheduler inside `onMessage`, the teardown
`stopConversation` together with the error paths of `startConversation`,
and the transcript accumulator. Clock times and buffer durations are
modelled as rationals, JavaScript strings as lists of characters, and the
component's mutable refs as explicit record state. -/

/-- Truncation toward zero: the integer conversion JavaScript applies to a
number before storing it into an integer typed array. -/
def truncQ (x : ℚ) : ℤ := if 0 ≤ x then ⌊x⌋ else ⌈x⌉

/-- The conversion performed by the assignment `int16[i] = data[i] * 32768`
in `createBlob` (part_000 line 16): scale by 32768, truncate toward zero,
then reduce modulo 2^16 into the signed 16-bit range. This is JavaScript
`ToInt16`, which wraps out-of-range values. -/
def toInt16 (x : ℚ) : ℤ :=
  let m := truncQ (x * 32768) % 65536
  if 32768 ≤ m then m - 65536 else m

/-- The block of 16-bit integers produced by the loop in `createBlob`
(part_000 lines 13-17). -/
def createBlobInts (data : List ℚ) : List ℤ := data.map toInt16

/-- Modelled from the spec: the byte buffer backing the `Int16Array`
(`int16.buffer`), with each integer packed in little-endian order ("pack
the resulting integers into a byte buffer in little-endian order"). The
`encode`/`decode` helpers of `utils/audioUtils` are not under `src/`, and
base64 is a bijection on byte buffers, so the round trip is modelled at
the byte-buffer level. -/
def int16ToBytes (n : ℤ) : List ℕ :=
  let u := (n % 65536).toNat
  [u % 256, u / 256]

/-- Modelled from the spec: little-endian packing of the whole block. -/
def packInt16s (l : List ℤ) : List ℕ := l.flatMap int16ToBytes

/-- Modelled from the spec: decoding a little-endian byte buffer back to
signed 16-bit integers. -/
def bytesToInt16s : List ℕ → List ℤ
  | lo :: hi :: rest =>
      (if 32768 ≤ (lo : ℤ) + 256 * hi then (lo : ℤ) + 256 * hi - 65536
       else (lo : ℤ) + 256 * hi) :: bytesToInt16s rest
  | _ => []

/-- The `ConversationStatus` union type (part_000 line 9). -/
inductive ConversationStatus
  | idle
  | connecting
  | listening
  | speaking
  | error
deriving DecidableEq, Repr

/-- Playback-scheduler state: `nextStartTimeRef`, the active set
`sourcesRef` (sources identified by creation order), the sources that have
received a `stop()` call, and a counter supplying fresh source ids. -/
structure SchedState where
  nextStartTime : ℚ
  active : List ℕ
  stopped : List ℕ
  nextId : ℕ
deriving DecidableEq, Repr

/-- The agent-audio branch of `onMessage` (part_000 lines 128-146):
`nextStartTime = max(nextStartTime, outputContext.currentTime)`, start the
new source at that time, add it to the active set, then advance
`nextStartTime` by the decoded buffer's duration. Returns the scheduled
start time together with the new state; `ct` is the playback context's
`currentTime` when the chunk is handled, `d` the chunk's duration. -/
def enqueue (ct d : ℚ) (s : SchedState) : ℚ × SchedState :=
  let startAt := max s.nextStartTime ct
  (startAt,
    { s with
        nextStartTime := startAt + d
        active := s.active ++ [s.nextId]
        nextId := s.nextId + 1 })

/-- The interruption branch of `onMessage` (part_000 lines 148-152): stop
every source in the active set, clear the set, reset `nextStartTime`
to 0. -/
def interrupt (s : SchedState) : SchedState :=
  { s with
      stopped := s.stopped ++ s.active
      active := []
      nextStartTime := 0 }

/-- Folding `enqueue` over a list of `(currentTime, duration)` chunks. -/
def runEnqueues (s : SchedState) : List (ℚ × ℚ) → SchedState
  | [] => s
  | c :: rest => runEnqueues (enqueue c.1 c.2 s).2 rest

/-- The two speaker tags of `TranscriptionTurn` (src/types.ts lines 2-5). -/
inductive Speaker
  | user
  | model
deriving DecidableEq, Repr

/-- A committed transcript turn (`TranscriptionTurn`). -/
structure Turn where
  speaker : Speaker
  text : List Char
deriving DecidableEq, Repr

/-- Strip elements satisfying `p` from both ends of a list. -/
def trimBy (p : α → Bool) (l : List α) : List α :=
  ((l.dropWhile p).reverse.dropWhile p).reverse

/-- JavaScript `String.prototype.trim`: strip whitespace from both ends. -/
def wtrim (l : List Char) : List Char := trimBy Char.isWhitespace l

/-- The turns appended by one turn-complete commit: the trimmed user
fragment first when non-empty, then the trimmed agent fragment when
non-empty (part_000 lines 115-120). -/
def committedTurns (inBuf outBuf : List Char) : List Turn :=
  (if wtrim inBuf = [] then [] else [⟨Speaker.user, wtrim inBuf⟩]) ++
    (if wtrim outBuf = [] then [] else [⟨Speaker.model, wtrim outBuf⟩])

/-- The turn-complete branch of `onMessage` (part_000 lines 111-123):
trim both pending buffers, append the non-empty fragments to the log in
the fixed user-then-model order, and clear both buffers unconditionally.
Returns (input buffer, output buffer, log). -/
def commitTurn (inBuf outBuf : List Char) (log : List Turn) :
    List Char × List Char × List Turn :=
  let fullInput := wtrim inBuf
  let fullOutput := wtrim outBuf
  ([], [],
    log ++ (if fullInput = [] then [] else [⟨Speaker.user, fullInput⟩])
        ++ (if fullOutput = [] then [] else [⟨Speaker.model, fullOutput⟩]))

/-- A remote-channel message, restricted to the fields `onMessage` reads
for transcript handling: the optional output/input transcription fragments
and the turn-complete flag. -/
structure ServerMsg where
  outputTranscription : Option (List Char)
  inputTranscription : Option (List Char)
  turnComplete : Bool
deriving DecidableEq, Repr

/-- The transcript-handling part of `onMessage` (part_000 lines 104-123):
append the output fragment, then the input fragment, to the pending
buffers, then commit when `turnComplete` is set. -/
def processTranscript (m : ServerMsg) (inBuf outBuf : List Char)
    (log : List Turn) : List Char × List Char × List Turn :=
  let outBuf1 := outBuf ++ m.outputTranscription.getD []
  let inBuf1 := inBuf ++ m.inputTranscription.getD []
  if m.turnComplete then commitTurn inBuf1 outBuf1 log
  else (inBuf1, outBuf1, log)

/-- Lifecycle state of an `AudioContext`; `close()` is modelled as moving
to `closed`. -/
inductive CtxState
  | running
  | closed
deriving DecidableEq, Repr

/-- The component's mutable refs and React state, as one record:
`sessionRef`, `scriptProcessorRef`, `mediaStreamSourceRef`, the two audio
context refs, `sourcesRef` (plus the set of sources that have received
`stop()`), `nextStartTimeRef`, the status, the two pending transcription
refs, and the committed transcription log. -/
structure ConvState where
  session : Option Unit
  scriptProcessor : Option Unit
  mediaStreamSource : Option Unit
  inputCtx : Option CtxState
  outputCtx : Option CtxState
  sources : List ℕ
  stoppedSources : List ℕ
  nextStartTime : ℚ
  status : ConversationStatus
  inputBuf : List Char
  outputBuf : List Char
  transcription : List Turn
deriving DecidableEq, Repr

/-- The component's initial state: nothing allocated, status `idle`. -/
def initState : ConvState :=
  { session := none
    scriptProcessor := none
    mediaStreamSource := none
    inputCtx := none
    outputCtx := none
    sources := []
    stoppedSources := []
    nextStartTime := 0
    status := ConversationStatus.idle
    inputBuf := []
    outputBuf := []
    transcription := [] }

/-- Which external release calls throw when invoked. The component's own
code contains no try/catch around the teardown steps, so a throw
propagates: in JavaScript, mutations made before the throw persist and the
statements after it do not run. -/
structure StopEnv where
  sessionCloseThrows : Bool
  spDisconnectThrows : Bool
  msDisconnectThrows : Bool
  inputCloseThrows : Bool
  outputCloseThrows : Bool
  sourceStopThrows : Bool
deriving DecidableEq, Repr

/-- The environment in which every external release call succeeds. -/
def benignEnv : StopEnv :=
  { sessionCloseThrows := false
    spDisconnectThrows := false
    msDisconnectThrows := false
    inputCloseThrows := false
    outputCloseThrows := false
    sourceStopThrows := false }

/-- Sequence two possibly-throwing steps: the second runs only when the
first did not throw. The boolean records that an exception is
propagating. -/
def seqStep (r : ConvState × Bool) (f : ConvState → ConvState × Bool) :
    ConvState × Bool :=
  if r.2 then r else f r.1

/-- `stopConversation` lines 40-43: when the session ref is set, close the
session and null the ref. -/
def closeSessionStep (env : StopEnv) (s : ConvState) : ConvState × Bool :=
  match s.session with
  | some _ =>
      if env.sessionCloseThrows then (s, true)
      else ({ s with session := none }, false)
  | none => (s, false)

/-- `stopConversation` lines 45-48: disconnect and null the script
processor ref when set. -/
def spDisconnectStep (env : StopEnv) (s : ConvState) : ConvState × Bool :=
  match s.scriptProcessor with
  | some _ =>
      if env.spDisconnectThrows then (s, true)
      else ({ s with scriptProcessor := none }, false)
  | none => (s, false)

/-- `stopConversation` lines 49-52: disconnect and null the media stream
source ref when set. -/
def msDisconnectStep (env : StopEnv) (s : ConvState) : ConvState × Bool :=
  match s.mediaStreamSource with
  | some _ =>
      if env.msDisconnectThrows then (s, true)
      else ({ s with mediaStreamSource := none }, false)
  | none => (s, false)

/-- `stopConversation` lines 53-55: close the input audio context when it
exists and is not already closed; the ref itself is not nulled. -/
def closeInputStep (env : StopEnv) (s : ConvState) : ConvState × Bool :=
  match s.inputCtx with
  | some CtxState.running =>
      if env.inputCloseThrows then (s, true)
      else ({ s with inputCtx := some CtxState.closed }, false)
  | _ => (s, false)

/-- `stopConversation` lines 56-58: close the output audio context when it
exists and is not already closed; the ref itself is not nulled. -/
def closeOutputStep (env : StopEnv) (s : ConvState) : ConvState × Bool :=
  match s.outputCtx with
  | some CtxState.running =>
      if env.outputCloseThrows then (s, true)
      else ({ s with outputCtx := some CtxState.closed }, false)
  | _ => (s, false)

/-- `stopConversation` lines 60-61: stop every source in the active set,
then clear the set. A throw during the iteration leaves the set unchanged
and skips the clear. -/
def stopSourcesStep (env : StopEnv) (s : ConvState) : ConvState × Bool :=
  if env.sourceStopThrows ∧ s.sources ≠ [] then (s, true)
  else ({ s with
            stoppedSources := s.stoppedSources ++ s.sources
            sources := [] }, false)

/-- `stopConversation` line 63: set the status to `idle`. -/
def setIdleStep (s : ConvState) : ConvState × Bool :=
  ({ s with status := ConversationStatus.idle }, false)

/-- `stopConversation` (part_000 lines 39-64): the seven teardown steps in
source order, sequenced with JavaScript exception semantics. -/
def stopConversation (env : StopEnv) (s : ConvState) : ConvState × Bool :=
  seqStep (seqStep (seqStep (seqStep (seqStep (seqStep
    (closeSessionStep env s)
    (spDisconnectStep env))
    (msDisconnectStep env))
    (closeInputStep env))
    (closeOutputStep env))
    (stopSourcesStep env))
    setIdleStep

/-- Close a context handle when present. -/
def closeCtx : Option CtxState → Option CtxState
  | none => none
  | some _ => some CtxState.closed

/-- The fully-torn-down state a throw-free `stopConversation` run leaves:
session, processor and source refs nulled, both contexts closed, every
active source stopped and the set cleared, status `idle`. -/
def fullTeardown (s : ConvState) : ConvState :=
  { s with
      session := none
      scriptProcessor := none
      mediaStreamSource := none
      inputCtx := closeCtx s.inputCtx
      outputCtx := closeCtx s.outputCtx
      sources := []
      stoppedSources := s.stoppedSources ++ s.sources
      status := ConversationStatus.idle }

/-- The `onError` callback (part_000 lines 154-158): log, set status
`error`, then run `stopConversation`. -/
def onErrorHandler (env : StopEnv) (s : ConvState) : ConvState × Bool :=
  stopConversation env { s with status := ConversationStatus.error }

/-- The catch block of `startConversation` (part_000 lines 163-167),
reached when the remote open request rejects: log and set status `error`;
no teardown call is made. -/
def startCatchHandler (s : ConvState) : ConvState :=
  { s with status := ConversationStatus.error }

/-- The synchronous mutations `startConversation` performs before issuing
the remote-channel open request (part_000 lines 72-85): status
`connecting`, committed log and both pending buffers cleared, both audio
contexts freshly allocated, `nextStartTime` reset to 0. The active
playback set `sourcesRef` is not touched. -/
def startPreOpen (s : ConvState) : ConvState :=
  { s with
      status := ConversationStatus.connecting
      transcription := []
      inputBuf := []
      outputBuf := []
      inputCtx := some CtxState.running
      outputCtx := some CtxState.running
      nextStartTime := 0 }

/-- A running session holding one active playback source, about to be
torn down. -/
def leakState : ConvState :=
  { session := some ()
    scriptProcessor := some ()
    mediaStreamSource := some ()
    inputCtx := some CtxState.running
    outputCtx := some CtxState.running
    sources := [0]
    stoppedSources := []
    nextStartTime := 5
    status := ConversationStatus.listening
    inputBuf := []
    outputBuf := []
    transcription := [] }

/-- An environment in which closing the remote session throws. -/
def sessionThrowEnv : StopEnv :=
  { benignEnv with sessionCloseThrows := true }

/-- The state at the moment the remote open request rejects inside
`startConversation`: both contexts already allocated, no session. -/
def openFailedState : ConvState :=
  { initState with
      status := ConversationStatus.connecting
      inputCtx := some CtxState.running
      outputCtx := some CtxState.running }

/-- A state left behind by a prior run with one stale source still in the
active playback set. -/
def staleSourceState : ConvState :=
  { initState with sources := [7] }

/-- Every value produced by the `Int16Array` conversion lies in the signed
16-bit range. -/
theorem toInt16_range (x : ℚ) : -32768 ≤ toInt16 x ∧ toInt16 x ≤ 32767 := by
  unfold toInt16
  generalize truncQ (x * 32768) = t
  dsimp only
  split <;> omega

/-- Decoding the two little-endian bytes of an in-range 16-bit integer
recovers the integer. -/
theorem bytesToInt16s_int16ToBytes (n : ℤ) (h1 : -32768 ≤ n)
    (h2 : n ≤ 32767) (rest : List ℕ) :
    bytesToInt16s (int16ToBytes n ++ rest) = n :: bytesToInt16s rest := by
  unfold int16ToBytes
  dsimp only
  rw [List.cons_append, List.cons_append, List.nil_append]
  rw [bytesToInt16s]
  congr 1
  split <;> omega

/-- Byte-level round trip over a whole in-range block. -/
theorem bytesToInt16s_packInt16s (l : List ℤ)
    (h : ∀ n ∈ l, -32768 ≤ n ∧ n ≤ 32767) :
    bytesToInt16s (packInt16s l) = l := by
  induction l with
  | nil => rfl
  | cons n t ih =>
    have hn := h n (List.mem_cons_self n t)
    rw [packInt16s, List.flatMap_cons]
    rw [bytesToInt16s_int16ToBytes n hn.1 hn.2]
    rw [show t.flatMap int16ToBytes = packInt16s t from rfl]
    rw [ih fun m hm => h m (List.mem_cons_of_mem n hm)]

/-- A zero sample converts to the zero 16-bit integer. -/
theorem toInt16_zero : toInt16 0 = 0 := by norm_num [toInt16, truncQ]

/-- A full-scale positive sample wraps to the minimum 16-bit integer. -/
theorem toInt16_one : toInt16 1 = -32768 := by norm_num [toInt16, truncQ]

/-- C1 counterexample: encoding the full-scale positive sample 1.0 with
`createBlob` produces the byte pair that decodes to -32768, the minimum
16-bit value — the conversion wraps, so the claimed clipped value 32767
is not produced. -/
theorem toInt16_fullScale_wraps_cex :
    bytesToInt16s (packInt16s (createBlobInts [1])) = [-32768] ∧
    toInt16 1 ≠ 32767 := by
  have h1 : createBlobInts [1] = [-32768] := by
    rw [show createBlobInts [1] = [toInt16 1] from rfl, toInt16_one]
  constructor
  · rw [h1]; decide
  · rw [toInt16_one]; decide

/-- C1 (amended): every encoded block decodes back to exactly the 16-bit
integers `createBlob` produced, a block of all-zero samples encodes to
all-zero integers, and the full-scale positive sample 1.0 encodes to
-32768 — the `Int16Array` conversion wraps out-of-range values modulo
2^16 instead of clipping them. -/
theorem createBlob_roundTrip_wrap :
    (∀ data : List ℚ,
      bytesToInt16s (packInt16s (createBlobInts data)) = createBlobInts data) ∧
    (∀ n : ℕ, createBlobInts (List.replicate n 0) = List.replicate n 0) ∧
    toInt16 1 = -32768 := by
  refine ⟨fun data => bytesToInt16s_packInt16s _ ?_, fun n => ?_, toInt16_one⟩
  · intro m hm
    rcases List.mem_map.mp hm with ⟨x, -, rfl⟩
    exact toInt16_range x
  · simp [createBlobInts, List.map_replicate, toInt16_zero]

/-- C2: each agent-audio chunk is scheduled at
`startAt = max(nextStartTime, currentTime)`, `nextStartTime` then advances
by the chunk's duration, and for three sequentially enqueued chunks of
durations `d1`, `d2`, `d3` the scheduled starts satisfy
`start2 >= start1 + d1` and `start3 >= start2 + d2`, with equality when
the later chunk arrives no later than the earlier one finishes. -/
theorem enqueue_sequential_starts (s : SchedState) (ct1 d1 ct2 d2 ct3 d3 : ℚ) :
    (enqueue ct1 d1 s).1 = max s.nextStartTime ct1 ∧
    (enqueue ct1 d1 s).2.nextStartTime = (enqueue ct1 d1 s).1 + d1 ∧
    (enqueue ct1 d1 s).1 + d1 ≤ (enqueue ct2 d2 (enqueue ct1 d1 s).2).1 ∧
    (enqueue ct2 d2 (enqueue ct1 d1 s).2).1 + d2 ≤
      (enqueue ct3 d3 (enqueue ct2 d2 (enqueue ct1 d1 s).2).2).1 ∧
    (ct2 ≤ (enqueue ct1 d1 s).1 + d1 →
      (enqueue ct2 d2 (enqueue ct1 d1 s).2).1 = (enqueue ct1 d1 s).1 + d1) ∧
    (ct3 ≤ (enqueue ct2 d2 (enqueue ct1 d1 s).2).1 + d2 →
      (enqueue ct3 d3 (enqueue ct2 d2 (enqueue ct1 d1 s).2).2).1 =
        (enqueue ct2 d2 (enqueue ct1 d1 s).2).1 + d2) := by
  refine ⟨rfl, rfl, ?_, ?_, fun h => ?_, fun h => ?_⟩ <;>
    simp only [enqueue]
  · exact le_max_left _ _
  · exact le_max_left _ _
  · exact max_eq_left h
  · exact max_eq_left h

/-- C2 witness: three unit-duration chunks arriving at times 0, 1, 2 into
a fresh scheduler start back to back at 0, 1, 2. -/
theorem enqueue_sequential_starts_w :
    (enqueue 1 1 (enqueue 0 1 ⟨0, [], [], 0⟩).2).1 = 1 ∧
    (enqueue 2 1 (enqueue 1 1 (enqueue 0 1 ⟨0, [], [], 0⟩).2).2).1 = 2 := by
  obtain ⟨-, -, -, -, h5, h6⟩ :=
    enqueue_sequential_starts ⟨0, [], [], 0⟩ 0 1 1 1 2 1
  have e1 : (enqueue 0 1 (⟨0, [], [], 0⟩ : SchedState)).1 = 0 := by
    norm_num [enqueue]
  have h5' := h5 (by rw [e1]; norm_num)
  have h6' := h6 (by rw [h5' , e1]; norm_num)
  refine ⟨by rw [h5', e1]; norm_num, by rw [h6', h5', e1]; norm_num⟩

/-- C6 counterexample: enqueuing one unit-duration chunk and then
processing an interruption drives `nextStartTime` from 1 back to 0, so
across an interleaving of enqueue and interrupt operations the next
scheduled start time is not monotonically non-decreasing. -/
theorem nextStartTime_decrease_cex :
    (interrupt (enqueue 0 1 ⟨0, [], [], 0⟩).2).nextStartTime <
      ((enqueue 0 1 ⟨0, [], [], 0⟩).2).nextStartTime := by
  norm_num [enqueue, interrupt]

/-- C6 (amended): across enqueue operations with non-negative durations
`nextStartTime` is monotonically non-decreasing, every scheduled start is
at least the playback clock at the moment of scheduling (and at least the
previous `nextStartTime`), but an interruption resets `nextStartTime`
to 0, which can decrease it. -/
theorem nextStartTime_monotone_amended :
    (∀ (s : SchedState) (chunks : List (ℚ × ℚ)),
      (∀ c ∈ chunks, 0 ≤ c.2) →
      s.nextStartTime ≤ (runEnqueues s chunks).nextStartTime) ∧
    (∀ (ct d : ℚ) (s : SchedState),
      ct ≤ (enqueue ct d s).1 ∧ s.nextStartTime ≤ (enqueue ct d s).1) ∧
    (∀ s : SchedState, (interrupt s).nextStartTime = 0) := by
  refine ⟨?_, fun ct d s => ⟨le_max_right _ _, le_max_left _ _⟩, fun s => rfl⟩
  intro s chunks
  induction chunks generalizing s with
  | nil => intro _; exact le_refl _
  | cons c rest ih =>
    intro h
    have hd : 0 ≤ c.2 := h c (List.mem_cons_self c rest)
    calc s.nextStartTime ≤ (enqueue c.1 c.2 s).2.nextStartTime := by
            simp only [enqueue]
            calc s.nextStartTime ≤ max s.nextStartTime c.1 := le_max_left _ _
              _ ≤ max s.nextStartTime c.1 + c.2 := le_add_of_nonneg_right hd
      _ ≤ (runEnqueues (enqueue c.1 c.2 s).2 rest).nextStartTime :=
            ih _ fun x hx => h x (List.mem_cons_of_mem c hx)

/-- C6 witness: one unit-duration chunk into a fresh scheduler does not
decrease `nextStartTime`. -/
theorem nextStartTime_monotone_amended_w :
    (⟨0, [], [], 0⟩ : SchedState).nextStartTime ≤
      (runEnqueues ⟨0, [], [], 0⟩ [(0, 1)]).nextStartTime :=
  nextStartTime_monotone_amended.1 ⟨0, [], [], 0⟩ [(0, 1)]
    (by intro c hc; simp at hc; rw [hc]; norm_num)

/-- C7: processing an interruption marks every source of the active set
stopped, clears the set, resets `nextStartTime` to 0, and a chunk
enqueued afterwards is scheduled exactly at the playback clock's current
time, not at the stale pre-interruption offset. -/
theorem interrupt_clears_schedule (s : SchedState) (ct d : ℚ) (h : 0 ≤ ct) :
    (∀ i ∈ s.active, i ∈ (interrupt s).stopped) ∧
    (interrupt s).active = [] ∧
    (interrupt s).nextStartTime = 0 ∧
    (enqueue ct d (interrupt s)).1 = ct := by
  refine ⟨fun i hi => ?_, rfl, rfl, ?_⟩
  · simp only [interrupt]
    exact List.mem_append_right _ hi
  · simp only [enqueue, interrupt]
    exact max_eq_right h

/-- C7 witness: interrupting a scheduler holding one active source and a
future offset of 5, then enqueuing at clock time 2, starts the new chunk
at 2. -/
theorem interrupt_clears_schedule_w :
    (∀ i ∈ (⟨5, [3], [], 4⟩ : SchedState).active,
      i ∈ (interrupt ⟨5, [3], [], 4⟩).stopped) ∧
    (interrupt ⟨5, [3], [], 4⟩).active = [] ∧
    (interrupt ⟨5, [3], [], 4⟩).nextStartTime = 0 ∧
    (enqueue 2 1 (interrupt ⟨5, [3], [], 4⟩)).1 = 2 :=
  interrupt_clears_schedule ⟨5, [3], [], 4⟩ 2 1 (by norm_num)

/-- A throw-free `stopConversation` run releases everything: each step's
presence guard skips absent resources and the run ends with status
`idle`. -/
theorem stop_benign (s : ConvState) :
    stopConversation benignEnv s = (fullTeardown s, false) := by
  obtain ⟨ses, sp, ms, ic, oc, src, st, nst, stat, ib, ob, tr⟩ := s
  cases ses <;> cases sp <;> cases ms <;>
    rcases ic with _ | (_ | _) <;> rcases oc with _ | (_ | _) <;>
    simp [stopConversation, seqStep, closeSessionStep, spDisconnectStep,
      msDisconnectStep, closeInputStep, closeOutputStep, stopSourcesStep,
      setIdleStep, benignEnv, fullTeardown, closeCtx]

/-- C3 counterexample: in a running session holding one active playback
source, a throw from the remote session's `close()` aborts
`stopConversation` before any later step runs — the processing node stays
connected, the active source is neither stopped nor removed, and the
status never reaches `idle`, so an earlier throwing step does leak the
later resources. -/
theorem stop_throw_skips_cex :
    stopConversation sessionThrowEnv leakState = (leakState, true) ∧
    leakState.sources = [0] ∧
    leakState.scriptProcessor = some () ∧
    leakState.status ≠ ConversationStatus.idle := by
  refine ⟨rfl, rfl, rfl, by decide⟩

/-- C3 (amended): every teardown step of `stopConversation` is guarded by
a presence check, so a throw-free run releases every held resource —
session, processing node and its source nulled, both contexts closed,
every active source stopped and the set cleared, status `idle`; the steps
are however not individually protected against exceptions, so a step that
throws skips the remaining releases. -/
theorem stop_teardown_amended (s : ConvState) :
    stopConversation benignEnv s = (fullTeardown s, false) ∧
    (fullTeardown s).session = none ∧
    (fullTeardown s).scriptProcessor = none ∧
    (fullTeardown s).mediaStreamSource = none ∧
    (fullTeardown s).inputCtx = closeCtx s.inputCtx ∧
    (fullTeardown s).outputCtx = closeCtx s.outputCtx ∧
    (fullTeardown s).sources = [] ∧
    (fullTeardown s).stoppedSources = s.stoppedSources ++ s.sources ∧
    (fullTeardown s).status = ConversationStatus.idle :=
  ⟨stop_benign s, rfl, rfl, rfl, rfl, rfl, rfl, rfl, rfl⟩

/-- `fullTeardown` is invariant under a prior status change and is
idempotent on the context and source fields. -/
theorem fullTeardown_status (s : ConvState) (st : ConversationStatus) :
    fullTeardown { s with status := st } = fullTeardown s := by
  obtain ⟨ses, sp, ms, ic, oc, src, stp, nst, stat, ib, ob, tr⟩ := s
  rfl

/-- Applying `fullTeardown` twice equals applying it once. -/
theorem fullTeardown_idem (s : ConvState) :
    fullTeardown (fullTeardown s) = fullTeardown s := by
  obtain ⟨ses, sp, ms, ic, oc, src, stp, nst, stat, ib, ob, tr⟩ := s
  rcases ic with _ | (_ | _) <;> rcases oc with _ | (_ | _) <;>
    simp [fullTeardown, closeCtx]

/-- C8: `stop()` is idempotent — under throw-free releases, running
`stopConversation` on the result of `stopConversation` changes nothing,
every run ends without error with status `idle`, and running it on the
never-started initial state is an error-free no-op. -/
theorem stop_idempotent :
    (∀ s : ConvState,
      stopConversation benignEnv (stopConversation benignEnv s).1 =
        stopConversation benignEnv s) ∧
    (∀ s : ConvState,
      (stopConversation benignEnv s).2 = false ∧
      (stopConversation benignEnv s).1.status = ConversationStatus.idle) ∧
    stopConversation benignEnv initState = (initState, false) := by
  refine ⟨fun s => ?_, fun s => ?_, ?_⟩
  · rw [stop_benign s, stop_benign (fullTeardown s), fullTeardown_idem s]
  · rw [stop_benign s]
    exact ⟨rfl, rfl⟩
  · rw [stop_benign initState]
    rfl

/-- C4 counterexample: when the remote open request rejects, the catch in
`startConversation` sets status `error` but performs no teardown — both
already-allocated audio contexts stay running; and when the channel errors
after opening, `onError` runs the teardown, whose final step overwrites
the `error` status with `idle`. -/
theorem connect_error_paths_cex :
    (startCatchHandler openFailedState).status = ConversationStatus.error ∧
    (startCatchHandler openFailedState).inputCtx = some CtxState.running ∧
    (startCatchHandler openFailedState).outputCtx = some CtxState.running ∧
    (onErrorHandler benignEnv leakState).1.status =
      ConversationStatus.idle := by
  refine ⟨rfl, rfl, rfl, ?_⟩
  rw [onErrorHandler, stop_benign]
  rfl

/-- C4 (amended): the controller catches both ConnectError paths at the
callback boundary without rethrowing; for an error after opening,
`onError` performs the full teardown, whose last step sets status `idle`
(overwriting the transient `error`); for a failure of the open request
itself, the catch in `start()` sets status `error` but performs no
teardown, leaving the session handle, contexts and sources untouched. -/
theorem connect_error_amended (s : ConvState) :
    (onErrorHandler benignEnv s).2 = false ∧
    (onErrorHandler benignEnv s).1 = fullTeardown s ∧
    (onErrorHandler benignEnv s).1.status = ConversationStatus.idle ∧
    (startCatchHandler s).status = ConversationStatus.error ∧
    (startCatchHandler s).session = s.session ∧
    (startCatchHandler s).inputCtx = s.inputCtx ∧
    (startCatchHandler s).outputCtx = s.outputCtx ∧
    (startCatchHandler s).sources = s.sources := by
  have h : onErrorHandler benignEnv s = (fullTeardown s, false) := by
    rw [onErrorHandler, stop_benign, fullTeardown_status]
  rw [h]
  exact ⟨rfl, rfl, rfl, rfl, rfl, rfl, rfl, rfl⟩

/-- C5 counterexample: a source left in the active playback set by a
prior run survives `start()`'s pre-open resets — the set is not reset to
empty before the open request is issued. -/
theorem start_keeps_sources_cex :
    (startPreOpen staleSourceState).sources = [7] ∧
    ([7] : List ℕ) ≠ [] :=
  ⟨rfl, by decide⟩

/-- C5 (amended): before issuing the open request, `start()` resets both
pending transcript accumulators, the committed transcript log and
`nextStartTime`, so no accumulator content from a prior run is observable
in the new run; the playback active set is not cleared by `start()` — it
carries over unchanged, and is empty after a normal teardown only because
`stop()` cleared it. -/
theorem start_reset_amended (s : ConvState) :
    (startPreOpen s).transcription = [] ∧
    (startPreOpen s).inputBuf = [] ∧
    (startPreOpen s).outputBuf = [] ∧
    (startPreOpen s).nextStartTime = 0 ∧
    (startPreOpen s).status = ConversationStatus.connecting ∧
    (startPreOpen s).sources = s.sources ∧
    (startPreOpen (stopConversation benignEnv s).1).sources = [] := by
  refine ⟨rfl, rfl, rfl, rfl, rfl, rfl, ?_⟩
  rw [stop_benign]
  rfl

/-- Dropping a satisfied head leaves a list whose head is unsatisfied, so
a second pass removes nothing. -/
theorem dropWhile_eq_self_of_head? (p : α → Bool) (l : List α)
    (h : ∀ a ∈ l.head?, p a = false) : l.dropWhile p = l := by
  cases l with
  | nil => rfl
  | cons a t =>
      have ha : p a = false := h a (by simp)
      simp [List.dropWhile_cons, ha]

/-- The head of a `dropWhile` result fails the predicate. -/
theorem head?_dropWhile_false (p : α → Bool) (l : List α) :
    ∀ a ∈ (l.dropWhile p).head?, p a = false := by
  intro a ha
  have h := List.head?_dropWhile_not p l
  rw [Option.mem_def] at ha
  rw [ha] at h
  exact h

/-- A non-empty `dropWhile` result keeps the original last element. -/
theorem getLast?_dropWhile_of_ne (p : α → Bool) (l : List α)
    (h : l.dropWhile p ≠ []) :
    (l.dropWhile p).getLast? = l.getLast? := by
  conv_rhs => rw [← List.takeWhile_append_dropWhile (p := p) (l := l)]
  rw [List.getLast?_append]
  cases hq : (l.dropWhile p).getLast? with
  | none => exact absurd (List.getLast?_eq_none_iff.mp hq) h
  | some a => rfl

/-- The first element of a trimmed list fails the predicate. -/
theorem trimBy_head? (p : α → Bool) (l : List α) :
    ∀ a ∈ (trimBy p l).head?, p a = false := by
  intro a ha
  unfold trimBy at ha
  rw [List.head?_reverse] at ha
  by_cases hne : ((l.dropWhile p).reverse.dropWhile p) = []
  · rw [hne] at ha
    simp at ha
  · rw [getLast?_dropWhile_of_ne p _ hne, List.getLast?_reverse] at ha
    exact head?_dropWhile_false p l a ha

/-- The last element of a trimmed list fails the predicate. -/
theorem trimBy_getLast? (p : α → Bool) (l : List α) :
    ∀ a ∈ (trimBy p l).getLast?, p a = false := by
  intro a ha
  unfold trimBy at ha
  rw [List.getLast?_reverse] at ha
  exact head?_dropWhile_false p _ a ha

/-- Trimming a list whose two edges already fail the predicate changes
nothing. -/
theorem trimBy_eq_self (p : α → Bool) (l : List α)
    (h1 : ∀ a ∈ l.head?, p a = false)
    (h2 : ∀ a ∈ l.getLast?, p a = false) : trimBy p l = l := by
  unfold trimBy
  rw [dropWhile_eq_self_of_head? p l h1]
  rw [dropWhile_eq_self_of_head? p l.reverse
    (by intro a ha; rw [List.head?_reverse] at ha; exact h2 a ha)]
  exact List.reverse_reverse l

/-- Trimming is idempotent. -/
theorem trimBy_idem (p : α → Bool) (l : List α) :
    trimBy p (trimBy p l) = trimBy p l :=
  trimBy_eq_self p _ (trimBy_head? p l) (trimBy_getLast? p l)

/-- JavaScript `trim` is idempotent. -/
theorem wtrim_idem (l : List Char) : wtrim (wtrim l) = wtrim l :=
  trimBy_idem Char.isWhitespace l

/-- Every turn a commit produces carries non-empty, whitespace-trimmed
text. -/
theorem committedTurns_good (inBuf outBuf : List Char) :
    ∀ t ∈ committedTurns inBuf outBuf,
      t.text ≠ [] ∧ wtrim t.text = t.text := by
  intro t ht
  unfold committedTurns at ht
  rcases List.mem_append.mp ht with h | h <;>
    [skip; skip] <;>
    · split at h
      · simp at h
      · rename_i hne
        simp at h
        subst h
        exact ⟨hne, wtrim_idem _⟩

/-- One commit equals appending `committedTurns` to the log and clearing
both buffers. -/
theorem commitTurn_eq (inBuf outBuf : List Char) (log : List Turn) :
    commitTurn inBuf outBuf log =
      ([], [], log ++ committedTurns inBuf outBuf) := by
  unfold commitTurn committedTurns
  dsimp only
  rw [List.append_assoc]

/-- C9: a turn-complete commit appends, for each speaker whose pending
buffer trims to a non-empty string, exactly one turn in the fixed
user-then-model order, and unconditionally clears both buffers; with only
a user fragment pending it appends exactly the one user turn, and a
repeated commit from the cleared buffers appends nothing. -/
theorem commitTurn_commits (inBuf outBuf : List Char) (log : List Turn) :
    commitTurn inBuf outBuf log =
      ([], [], log ++ committedTurns inBuf outBuf) ∧
    (wtrim inBuf ≠ [] → wtrim outBuf = [] →
      commitTurn inBuf outBuf log =
        ([], [], log ++ [⟨Speaker.user, wtrim inBuf⟩])) ∧
    (commitTurn [] [] log).2.2 = log := by
  refine ⟨commitTurn_eq inBuf outBuf log, fun h1 h2 => ?_, ?_⟩
  · unfold commitTurn
    dsimp only
    rw [if_neg h1, if_pos h2]
    simp
  · simp [commitTurn, show wtrim [] = [] from rfl]

/-- C9 witness: committing with pending user fragment " hi" and pending
agent fragment " " (whitespace only) appends exactly one user turn. -/
theorem commitTurn_commits_w :
    commitTurn [' ', 'h', 'i'] [' '] [] =
      ([], [], [] ++ [⟨Speaker.user, wtrim [' ', 'h', 'i']⟩]) :=
  (commitTurn_commits [' ', 'h', 'i'] [' '] []).2.1 (by decide) (by decide)

/-- C10: processing any message only appends to the committed log —
earlier turns are untouched — and every appended turn has non-empty,
whitespace-trimmed text; consequently the all-turns-good invariant of the
log is preserved by every message. -/
theorem transcript_append_only (m : ServerMsg) (inBuf outBuf : List Char)
    (log : List Turn) :
    (∃ ns : List Turn,
      (processTranscript m inBuf outBuf log).2.2 = log ++ ns ∧
      ∀ t ∈ ns, t.text ≠ [] ∧ wtrim t.text = t.text) ∧
    ((∀ t ∈ log, t.text ≠ [] ∧ wtrim t.text = t.text) →
      ∀ t ∈ (processTranscript m inBuf outBuf log).2.2,
        t.text ≠ [] ∧ wtrim t.text = t.text) := by
  unfold processTranscript
  dsimp only
  by_cases hc : m.turnComplete
  · rw [if_pos hc]
    have hcc := commitTurn_eq (inBuf ++ m.inputTranscription.getD [])
      (outBuf ++ m.outputTranscription.getD []) log
    constructor
    · exact ⟨committedTurns (inBuf ++ m.inputTranscription.getD [])
        (outBuf ++ m.outputTranscription.getD []), by rw [hcc],
        committedTurns_good _ _⟩
    · intro hlog t ht
      rw [hcc] at ht
      rcases List.mem_append.mp ht with h | h
      · exact hlog t h
      · exact committedTurns_good _ _ t h
  · rw [if_neg hc]
    exact ⟨⟨[], by simp, by simp⟩, fun hlog => hlog⟩

/-- C10 witness: from an empty log and empty buffers, a message carrying
a whitespace-only output fragment, an input fragment, and the
turn-complete flag leaves a log whose every turn has non-empty trimmed
text. -/
theorem transcript_append_only_w :
    ∀ t ∈ (processTranscript ⟨some [' '], some ['h'], true⟩ [] [] []).2.2,
      t.text ≠ [] ∧ wtrim t.text = t.text :=
  (transcript_append_only ⟨some [' '], some ['h'], true⟩ [] [] []).2
    (by simp)
